import Mathlib

/-!
Verification of the geometry/rendering core of the `beziers` repository
(quadratic Bezier stroke editor).

The Rust code in `src/geometry.rs` and the GLSL shader in `src/bstroke.rs`
are shallowly embedded here.  Scalars of the idealized model are elements of
a linear ordered field (instantiated at ℚ for the discrete editing protocol
and at ℝ where square roots and trigonometry are needed); in this idealized
model division is the Mathlib total division (division by zero yields 0).
A second, explicitly non-finiteness-tracking model (scalars `Option ℝ`,
with `none` standing for a non-finite IEEE value, NaN or an infinity) is
used for the claims about NaN propagation on degenerate inputs.
-/

set_option maxHeartbeats 1600000

/-- Two dimensional vector over a scalar type, mirroring `glam::Vec2`. -/
structure Vec2 (α : Type) where
  x : α
  y : α
deriving DecidableEq

/-- Constructor mirroring `glam::vec2`. -/
def vec2 {α : Type} (x y : α) : Vec2 α := ⟨x, y⟩

instance {α : Type} [Add α] : Add (Vec2 α) := ⟨fun v w => ⟨v.x + w.x, v.y + w.y⟩⟩
instance {α : Type} [Sub α] : Sub (Vec2 α) := ⟨fun v w => ⟨v.x - w.x, v.y - w.y⟩⟩
instance {α : Type} [Mul α] : Mul (Vec2 α) := ⟨fun v w => ⟨v.x * w.x, v.y * w.y⟩⟩
instance {α : Type} [Div α] : Div (Vec2 α) := ⟨fun v w => ⟨v.x / w.x, v.y / w.y⟩⟩
instance {α : Type} [Mul α] : HMul α (Vec2 α) (Vec2 α) := ⟨fun r v => ⟨r * v.x, r * v.y⟩⟩

theorem Vec2.ext_iff {α : Type} {v w : Vec2 α} : v = w ↔ v.x = w.x ∧ v.y = w.y := by
  constructor
  · intro h; cases h; exact ⟨rfl, rfl⟩
  · intro h; cases v; cases w; simp_all

@[simp] theorem Vec2.add_x {α : Type} [Add α] (v w : Vec2 α) : (v + w).x = v.x + w.x := rfl
@[simp] theorem Vec2.add_y {α : Type} [Add α] (v w : Vec2 α) : (v + w).y = v.y + w.y := rfl
@[simp] theorem Vec2.sub_x {α : Type} [Sub α] (v w : Vec2 α) : (v - w).x = v.x - w.x := rfl
@[simp] theorem Vec2.sub_y {α : Type} [Sub α] (v w : Vec2 α) : (v - w).y = v.y - w.y := rfl
@[simp] theorem Vec2.mul_x {α : Type} [Mul α] (v w : Vec2 α) : (v * w).x = v.x * w.x := rfl
@[simp] theorem Vec2.mul_y {α : Type} [Mul α] (v w : Vec2 α) : (v * w).y = v.y * w.y := rfl
@[simp] theorem Vec2.div_x {α : Type} [Div α] (v w : Vec2 α) : (v / w).x = v.x / w.x := rfl
@[simp] theorem Vec2.div_y {α : Type} [Div α] (v w : Vec2 α) : (v / w).y = v.y / w.y := rfl
@[simp] theorem Vec2.smul_x {α : Type} [Mul α] (r : α) (v : Vec2 α) : (r * v).x = r * v.x := rfl
@[simp] theorem Vec2.smul_y {α : Type} [Mul α] (r : α) (v : Vec2 α) : (r * v).y = r * v.y := rfl
@[simp] theorem vec2_x {α : Type} (a b : α) : (vec2 a b).x = a := rfl
@[simp] theorem vec2_y {α : Type} (a b : α) : (vec2 a b).y = b := rfl
@[simp] theorem Vec2.mk_x {α : Type} (a b : α) : (Vec2.mk a b).x = a := rfl
@[simp] theorem Vec2.mk_y {α : Type} (a b : α) : (Vec2.mk a b).y = b := rfl

/-- Componentwise minimum, mirroring `glam::Vec2::min` on finite floats. -/
def Vec2.min {α : Type} [LinearOrder α] (v w : Vec2 α) : Vec2 α :=
  ⟨Min.min v.x w.x, Min.min v.y w.y⟩

/-- Componentwise maximum, mirroring `glam::Vec2::max` on finite floats. -/
def Vec2.max {α : Type} [LinearOrder α] (v w : Vec2 α) : Vec2 α :=
  ⟨Max.max v.x w.x, Max.max v.y w.y⟩

/-- Dot product, mirroring `glam::Vec2::dot`. -/
def Vec2.dot {α : Type} [Add α] [Mul α] (v w : Vec2 α) : α :=
  v.x * w.x + v.y * w.y

/-- The scalar clamp to [0, 1] from `geometry.rs`. -/
def clamp {α : Type} [LinearOrderedField α] (a : α) : α :=
  if a < 0 then 0 else if a > 1 then 1 else a

/-- The frame inflation `bounding_box_frame` from `geometry.rs`. -/
def bounding_box_frame {α : Type} [LinearOrderedField α]
    (mi ma : Vec2 α) (width : α) : Vec2 α × Vec2 α :=
  let frame := vec2 width width
  (mi - frame, ma + frame)

/-- The oriented area (2d cross product) `wedge` from `geometry.rs`. -/
def wedge {α : Type} [Ring α] (v1 v2 : Vec2 α) : α :=
  v1.x * v2.y - v1.y * v2.x

/-- The rotation helper `rot` from `geometry.rs`. -/
def rot {α : Type} [Ring α] (point : Vec2 α) (cosb sinb : α) : Vec2 α :=
  vec2 (cosb * point.x - sinb * point.y) (sinb * point.x + cosb * point.y)

/-- A quadratic Bezier segment, mirroring `QuadCurve` from `geometry.rs`. -/
structure QuadCurve (α : Type) where
  a : Vec2 α
  control : Vec2 α
  c : Vec2 α
deriving DecidableEq

/-- Constructor mirroring `QuadCurve::new`. -/
def QuadCurve.new {α : Type} (a control c : Vec2 α) : QuadCurve α := ⟨a, control, c⟩

/-- Analytic evaluation of the quadratic Bezier curve at parameter `t`:
`(1-t)^2 a + 2 (1-t) t control + t^2 c` (the formula from the spec glossary).
This is the mathematical referent the claims compare the code against. -/
def QuadCurve.point {α : Type} [CommRing α] (q : QuadCurve α) (t : α) : Vec2 α :=
  ((1 - t) * (1 - t)) * q.a + (2 * (1 - t) * t) * q.control + (t * t) * q.c

/-- Axis-aligned bounding box, `QuadCurve::bounding_box` from `geometry.rs`. -/
def QuadCurve.bounding_box {α : Type} [LinearOrderedField α]
    (q : QuadCurve α) : Vec2 α × Vec2 α :=
  let p0 := q.a
  let p1 := q.control
  let p2 := q.c
  let mi := p0.min p2
  let ma := p0.max p2
  if p1.x < mi.x ∨ p1.x > ma.x ∨ p1.y < mi.y ∨ p1.y > ma.y then
    let t := (p0 - p1) / (p0 - (2 : α) * p1 + p2)
    let t := vec2 (clamp t.x) (clamp t.y)
    let s := vec2 (1 : α) (1 : α) - t
    let qq := s * s * p0 + (2 : α) * s * t * p1 + t * t * p2
    (mi.min qq, ma.max qq)
  else
    (mi, ma)

/-- Uniform scaling, `QuadCurve::scale` from `geometry.rs`. -/
def QuadCurve.scale {α : Type} [Mul α] (q : QuadCurve α) (s : α) : QuadCurve α :=
  ⟨s * q.a, s * q.control, s * q.c⟩

/-- De Casteljau subdivision at 1/2, `QuadCurve::split` from `geometry.rs`. -/
def QuadCurve.split {α : Type} [LinearOrderedField α]
    (q : QuadCurve α) : QuadCurve α × QuadCurve α :=
  let q0 := (q.a + q.control) / vec2 2 2
  let q1 := (q.control + q.c) / vec2 2 2
  let r0 := (q0 + q1) / vec2 2 2
  (QuadCurve.new q.a q0 r0, QuadCurve.new r0 q1 q.c)

/-- The interactive path state, mirroring `BezierPath` from `geometry.rs`. -/
structure BezierPath (α : Type) where
  last : Option (Vec2 α)
  control : Option (Vec2 α)
  curves : List (QuadCurve α)
deriving DecidableEq

/-- The `Default` state of `BezierPath` (empty path). -/
def BezierPath.empty {α : Type} : BezierPath α := ⟨none, none, []⟩

/-- One editing click, `BezierPath::stroke` from `geometry.rs`.
The branch structure mirrors the Rust `if let` chain: if both `last` and
`control` are pending the curve is committed; otherwise a missing `last` is
recorded first, then a missing `control`. -/
def BezierPath.stroke {α : Type} (s : BezierPath α) (point : Vec2 α) : BezierPath α :=
  match s.last, s.control with
  | some last, some control =>
      ⟨some point, none, s.curves ++ [⟨last, control, point⟩]⟩
  | none, ctl => ⟨some point, ctl, s.curves⟩
  | some l, none => ⟨some l, some point, s.curves⟩

/-- Undo of the most recent committed curve, `BezierPath::undo` from
`geometry.rs` (`Vec::pop` removes the final element). -/
def BezierPath.undo {α : Type} (s : BezierPath α) : BezierPath α :=
  match s.curves.getLast? with
  | some curve => ⟨some curve.a, some curve.control, s.curves.dropLast⟩
  | none => s

/-- Reset, `BezierPath::clear` from `geometry.rs`. -/
def BezierPath.clear {α : Type} (_s : BezierPath α) : BezierPath α := ⟨none, none, []⟩

/-- States of `BezierPath` reachable from the empty path through the three
mutating operations (the only mutations performed by the driver). -/
inductive Reachable : BezierPath ℚ → Prop
  | empty : Reachable BezierPath.empty
  | stroke (s : BezierPath ℚ) (p : Vec2 ℚ) : Reachable s → Reachable (s.stroke p)
  | undo (s : BezierPath ℚ) : Reachable s → Reachable s.undo
  | clear (s : BezierPath ℚ) : Reachable s → Reachable s.clear

lemma reachable_control_imp_last {s : BezierPath ℚ} (h : Reachable s) :
    ∀ ctl, s.control = some ctl → ∃ l, s.last = some l := by
  induction h with
  | empty => intro ctl h; simp [BezierPath.empty] at h
  | stroke s p _ ih =>
      intro ctl h
      rcases hl : s.last with _ | l <;> rcases hc : s.control with _ | c
      · simp [BezierPath.stroke, hl, hc] at h
      · exact ⟨p, by simp [BezierPath.stroke, hl, hc]⟩
      · exact ⟨l, by simp [BezierPath.stroke, hl, hc]⟩
      · simp [BezierPath.stroke, hl, hc] at h
  | undo s _ ih =>
      intro ctl h
      rcases hg : s.curves.getLast? with _ | curve
      · simp [BezierPath.undo, hg] at h ⊢; exact ih ctl h
      · simp [BezierPath.undo, hg]
  | clear s _ _ => intro ctl h; simp [BezierPath.clear] at h

/-- C4: `stroke` implements the three-phase protocol, and three strokes from
the empty path commit exactly the single curve with the clicked points. -/
theorem stroke_protocol (s : BezierPath ℚ) (p : Vec2 ℚ) :
    (s.last = none → s.control = none → s.stroke p = ⟨some p, none, s.curves⟩)
    ∧ (∀ l, s.last = some l → s.control = none →
        s.stroke p = ⟨some l, some p, s.curves⟩)
    ∧ (∀ l ctl, s.last = some l → s.control = some ctl →
        s.stroke p = ⟨some p, none, s.curves ++ [⟨l, ctl, p⟩]⟩)
    ∧ (∀ P0 P1 P2 : Vec2 ℚ,
        ((BezierPath.empty.stroke P0).stroke P1).curves = []
        ∧ (((BezierPath.empty.stroke P0).stroke P1).stroke P2
            = ⟨some P2, none, [⟨P0, P1, P2⟩]⟩)) := by
  refine ⟨?_, ?_, ?_, ?_⟩
  · intro h1 h2; simp [BezierPath.stroke, h1, h2]
  · intro l h1 h2; simp [BezierPath.stroke, h1, h2]
  · intro l ctl h1 h2; simp [BezierPath.stroke, h1, h2]
  · intro P0 P1 P2; constructor <;> rfl

/-- Witness for C4 at concrete inputs: the commit case of the protocol and
the three-click scenario. -/
theorem stroke_protocol_witness :
    ((⟨some (vec2 1 2), some (vec2 3 4), []⟩ : BezierPath ℚ).stroke (vec2 5 6)
      = ⟨some (vec2 5 6), none, [⟨vec2 1 2, vec2 3 4, vec2 5 6⟩]⟩)
    ∧ ((((BezierPath.empty : BezierPath ℚ).stroke (vec2 0 0)).stroke (vec2 1 1)).curves
        = []) := by
  refine ⟨?_, ?_⟩
  · exact (stroke_protocol ⟨some (vec2 1 2), some (vec2 3 4), []⟩ (vec2 5 6)).2.2.1
      (vec2 1 2) (vec2 3 4) rfl rfl
  · exact ((stroke_protocol (BezierPath.empty : BezierPath ℚ) (vec2 0 0)).2.2.2 (vec2 0 0)
      (vec2 1 1) (vec2 1 1)).1

/-- C3 counterexample: from the empty path, a single stroke followed by undo
does not restore the state (the stroke only records `last`; undo of an empty
curve list is a no-op), so stroke-then-undo is not an exact inverse in the
mid-curve case. -/
theorem stroke_undo_not_inverse_on_empty :
    ¬ ((BezierPath.empty.stroke (vec2 (1 : ℚ) 2)).undo = BezierPath.empty) := by
  decide

/-- C3 amended: stroke followed by undo restores `last`, `control` and
`curves` exactly when the pre-stroke state has a pending control point
(the completed-curve case, the only case in which the driver pairs a preview
stroke with an undo). -/
theorem stroke_undo_inverse (s : BezierPath ℚ) (p : Vec2 ℚ)
    (l ctl : Vec2 ℚ) (hl : s.last = some l) (hc : s.control = some ctl) :
    (s.stroke p).undo = s := by
  obtain ⟨la, co, cu⟩ := s
  simp only at hl hc
  subst hl; subst hc
  simp [BezierPath.stroke, BezierPath.undo]

/-- Witness for C3 amended at a concrete completed-curve state. -/
theorem stroke_undo_inverse_witness :
    ((⟨some (vec2 0 0), some (vec2 1 1), [⟨vec2 2 2, vec2 3 3, vec2 4 4⟩]⟩ :
        BezierPath ℚ).stroke (vec2 5 5)).undo
      = ⟨some (vec2 0 0), some (vec2 1 1), [⟨vec2 2 2, vec2 3 3, vec2 4 4⟩]⟩ :=
  stroke_undo_inverse _ (vec2 5 5) (vec2 0 0) (vec2 1 1) rfl rfl

/-- C10: in every reachable state a pending control point implies a pending
start point, hence a preview stroke always commits a curve and the paired
undo removes exactly that curve, restoring the state. -/
theorem reachable_preview_safe (s : BezierPath ℚ) (h : Reachable s)
    (ctl : Vec2 ℚ) (hc : s.control = some ctl) :
    ∃ l, s.last = some l
      ∧ ∀ p, s.stroke p = ⟨some p, none, s.curves ++ [⟨l, ctl, p⟩]⟩
        ∧ (s.stroke p).undo = s := by
  obtain ⟨l, hl⟩ := reachable_control_imp_last h ctl hc
  refine ⟨l, hl, fun p => ⟨?_, stroke_undo_inverse s p l ctl hl hc⟩⟩
  simp [BezierPath.stroke, hl, hc]

/-- Witness for C10 at the concrete reachable state built by two strokes. -/
theorem reachable_preview_safe_witness :
    ∃ l, ((BezierPath.empty.stroke (vec2 (0 : ℚ) 0)).stroke (vec2 1 1)).last = some l
      ∧ ∀ p, ((BezierPath.empty.stroke (vec2 (0 : ℚ) 0)).stroke (vec2 1 1)).stroke p
            = ⟨some p, none,
                ((BezierPath.empty.stroke (vec2 (0 : ℚ) 0)).stroke (vec2 1 1)).curves
                  ++ [⟨l, vec2 1 1, p⟩]⟩
          ∧ (((BezierPath.empty.stroke (vec2 (0 : ℚ) 0)).stroke (vec2 1 1)).stroke p).undo
            = (BezierPath.empty.stroke (vec2 (0 : ℚ) 0)).stroke (vec2 1 1) :=
  reachable_preview_safe _
    (Reachable.stroke _ _ (Reachable.stroke _ _ Reachable.empty)) (vec2 1 1) rfl

/-- C9: `split` is the De Casteljau subdivision at parameter 1/2: the left
child at `t` traces the parent at `t/2` and the right child at `t` traces
the parent at `(t+1)/2`. -/
theorem split_de_casteljau (q : QuadCurve ℝ) (t : ℝ) (h0 : 0 ≤ t) (h1 : t ≤ 1) :
    (q.split.1.point t = q.point (t / 2))
    ∧ (q.split.2.point t = q.point ((t + 1) / 2)) := by
  obtain ⟨⟨a1, a2⟩, ⟨b1, b2⟩, ⟨c1, c2⟩⟩ := q
  constructor <;>
    · rw [Vec2.ext_iff]
      constructor <;>
        · simp [QuadCurve.split, QuadCurve.point, QuadCurve.new]
          ring

/-- Witness for C9 at a concrete curve and parameter. -/
theorem split_de_casteljau_witness :
    ((0 : ℝ) ≤ 1/2) ∧ ((1/2 : ℝ) ≤ 1)
    ∧ (((⟨vec2 0 0, vec2 1 2, vec2 3 1⟩ : QuadCurve ℝ).split.1.point (1/2)
        = (⟨vec2 0 0, vec2 1 2, vec2 3 1⟩ : QuadCurve ℝ).point ((1/2) / 2))
      ∧ ((⟨vec2 0 0, vec2 1 2, vec2 3 1⟩ : QuadCurve ℝ).split.2.point (1/2)
        = (⟨vec2 0 0, vec2 1 2, vec2 3 1⟩ : QuadCurve ℝ).point ((1/2 + 1) / 2))) :=
  ⟨by norm_num, by norm_num,
    split_de_casteljau ⟨vec2 0 0, vec2 1 2, vec2 3 1⟩ (1/2) (by norm_num) (by norm_num)⟩

/-- The extended-extremum value that `bounding_box` and `optimal_bb` add to
the baseline box on one axis: the Bezier value at the clamped stationary
parameter of that axis. -/
noncomputable def qval (p0 p1 p2 : ℝ) : ℝ :=
  let tt := clamp ((p0 - p1) / (p0 - 2 * p1 + p2))
  let s := 1 - tt
  s * s * p0 + 2 * s * tt * p1 + tt * tt * p2

lemma clamp_of_mem {a : ℝ} (h0 : 0 ≤ a) (h1 : a ≤ 1) : clamp a = a := by
  unfold clamp
  rw [if_neg (not_lt.mpr h0), if_neg (not_lt.mpr h1)]

lemma clamp_mem (a : ℝ) : 0 ≤ clamp a ∧ clamp a ≤ 1 := by
  unfold clamp
  split_ifs with h1 h2 <;> constructor <;> linarith

/-- One-axis convexity bound: when the control value lies between the
endpoint values the Bezier value stays between them as well. -/
lemma scalar_inside_bounds (p0 p1 p2 t : ℝ) (ht0 : 0 ≤ t) (ht1 : t ≤ 1)
    (hlo : Min.min p0 p2 ≤ p1) (hup : p1 ≤ Max.max p0 p2) :
    Min.min p0 p2 ≤ (1 - t) * (1 - t) * p0 + 2 * (1 - t) * t * p1 + t * t * p2
    ∧ (1 - t) * (1 - t) * p0 + 2 * (1 - t) * t * p1 + t * t * p2 ≤ Max.max p0 p2 := by
  have hm0 : Min.min p0 p2 ≤ p0 := min_le_left _ _
  have hm2 : Min.min p0 p2 ≤ p2 := min_le_right _ _
  have hM0 : p0 ≤ Max.max p0 p2 := le_max_left _ _
  have hM2 : p2 ≤ Max.max p0 p2 := le_max_right _ _
  constructor
  · nlinarith [mul_nonneg (mul_nonneg (by linarith : (0:ℝ) ≤ 1 - t)
        (by linarith : (0:ℝ) ≤ 1 - t)) (by linarith : 0 ≤ p0 - Min.min p0 p2),
      mul_nonneg (mul_nonneg (by linarith : (0:ℝ) ≤ 2 * (1 - t)) ht0)
        (by linarith : 0 ≤ p1 - Min.min p0 p2),
      mul_nonneg (mul_nonneg ht0 ht0) (by linarith : 0 ≤ p2 - Min.min p0 p2)]
  · nlinarith [mul_nonneg (mul_nonneg (by linarith : (0:ℝ) ≤ 1 - t)
        (by linarith : (0:ℝ) ≤ 1 - t)) (by linarith : 0 ≤ Max.max p0 p2 - p0),
      mul_nonneg (mul_nonneg (by linarith : (0:ℝ) ≤ 2 * (1 - t)) ht0)
        (by linarith : 0 ≤ Max.max p0 p2 - p1),
      mul_nonneg (mul_nonneg ht0 ht0) (by linarith : 0 ≤ Max.max p0 p2 - p2)]

/-- One-axis soundness of the extremum-extension technique: for every scalar
control configuration the Bezier value at any `t` in [0,1] lies between the
extended minimum and the extended maximum. -/
lemma scalar_ext_bounds (p0 p1 p2 t : ℝ) (ht0 : 0 ≤ t) (ht1 : t ≤ 1) :
    Min.min (Min.min p0 p2) (qval p0 p1 p2)
        ≤ (1 - t) * (1 - t) * p0 + 2 * (1 - t) * t * p1 + t * t * p2
    ∧ (1 - t) * (1 - t) * p0 + 2 * (1 - t) * t * p1 + t * t * p2
        ≤ Max.max (Max.max p0 p2) (qval p0 p1 p2) := by
  rcases le_or_lt p1 (Max.max p0 p2) with hup | hup
  · rcases le_or_lt (Min.min p0 p2) p1 with hlo | hlo
    · -- control between the endpoints on this axis: convexity suffices
      obtain ⟨hl, hr⟩ := scalar_inside_bounds p0 p1 p2 t ht0 ht1 hlo hup
      exact ⟨le_trans (min_le_left _ _) hl, le_trans hr (le_max_left _ _)⟩
    · -- control below the box: the curve dips down to the clamped extremum
      have h0 : p1 < p0 := lt_of_lt_of_le hlo (min_le_left _ _)
      have h2 : p1 < p2 := lt_of_lt_of_le hlo (min_le_right _ _)
      set D : ℝ := p0 - 2 * p1 + p2 with hDdef
      have hD : 0 < D := by simp only [hDdef]; linarith
      set u : ℝ := (p0 - p1) / D with hudef
      have hu : u * D = p0 - p1 := div_mul_cancel₀ _ (ne_of_gt hD)
      have hu0 : 0 ≤ u := div_nonneg (by linarith) (le_of_lt hD)
      have hdiff : (u - 1) * D = p1 - p2 := by linear_combination hu
      have hu1 : u ≤ 1 := by
        rcases le_or_lt u 1 with h | h
        · exact h
        · exact absurd hdiff (by
            have : 0 < (u - 1) * D := mul_pos (by linarith) hD
            intro hx; rw [hx] at this; linarith)
      have hq : qval p0 p1 p2 =
          (1 - u) * (1 - u) * p0 + 2 * (1 - u) * u * p1 + u * u * p2 := by
        simp only [qval, ← hDdef, ← hudef, clamp_of_mem hu0 hu1]
      constructor
      · have : qval p0 p1 p2
            ≤ (1 - t) * (1 - t) * p0 + 2 * (1 - t) * t * p1 + t * t * p2 := by
          rw [hq]; nlinarith [sq_nonneg (u - t), hu, hD]
        calc Min.min (Min.min p0 p2) (qval p0 p1 p2) ≤ qval p0 p1 p2 :=
              min_le_right _ _
          _ ≤ _ := this
      · have hchord : (1 - t) * (1 - t) * p0 + 2 * (1 - t) * t * p1 + t * t * p2
            ≤ (1 - t) * p0 + t * p2 := by nlinarith [mul_nonneg (mul_nonneg (by linarith : (0:ℝ) ≤ t) (by linarith : (0:ℝ) ≤ 1 - t)) (le_of_lt hD)]
        have hcc : (1 - t) * p0 + t * p2 ≤ Max.max p0 p2 := by
          nlinarith [le_max_left p0 p2, le_max_right p0 p2,
            mul_nonneg (by linarith : (0:ℝ) ≤ 1 - t)
              (by linarith [le_max_left p0 p2] : 0 ≤ Max.max p0 p2 - p0),
            mul_nonneg ht0 (by linarith [le_max_right p0 p2] : 0 ≤ Max.max p0 p2 - p2)]
        calc (1 - t) * (1 - t) * p0 + 2 * (1 - t) * t * p1 + t * t * p2
            ≤ Max.max p0 p2 := le_trans hchord hcc
          _ ≤ Max.max (Max.max p0 p2) (qval p0 p1 p2) := le_max_left _ _
  · -- control above the box: the curve bulges up to the clamped extremum
    have h0 : p0 < p1 := lt_of_le_of_lt (le_max_left p0 p2) hup
    have h2 : p2 < p1 := lt_of_le_of_lt (le_max_right p0 p2) hup
    set D : ℝ := p0 - 2 * p1 + p2 with hDdef
    have hD : D < 0 := by simp only [hDdef]; linarith
    set u : ℝ := (p0 - p1) / D with hudef
    have hu : u * D = p0 - p1 := div_mul_cancel₀ _ (ne_of_lt hD)
    have hu0 : 0 ≤ u := div_nonneg_of_nonpos (by linarith) (le_of_lt hD)
    have hdiff : (u - 1) * D = p1 - p2 := by linear_combination hu
    have hu1 : u ≤ 1 := by
      rcases le_or_lt u 1 with h | h
      · exact h
      · exact absurd hdiff (by
          have : (u - 1) * D < 0 := mul_neg_of_pos_of_neg (by linarith) hD
          intro hx; rw [hx] at this; linarith)
    have hq : qval p0 p1 p2 =
        (1 - u) * (1 - u) * p0 + 2 * (1 - u) * u * p1 + u * u * p2 := by
      simp only [qval, ← hDdef, ← hudef, clamp_of_mem hu0 hu1]
    constructor
    · have hchord : (1 - t) * p0 + t * p2
          ≤ (1 - t) * (1 - t) * p0 + 2 * (1 - t) * t * p1 + t * t * p2 := by
        nlinarith [mul_nonneg (mul_nonneg (by linarith : (0:ℝ) ≤ t)
          (by linarith : (0:ℝ) ≤ 1 - t)) (by linarith : (0:ℝ) ≤ -D)]
      have hcc : Min.min p0 p2 ≤ (1 - t) * p0 + t * p2 := by
        nlinarith [mul_nonneg (by linarith : (0:ℝ) ≤ 1 - t)
            (by linarith [min_le_left p0 p2] : 0 ≤ p0 - Min.min p0 p2),
          mul_nonneg ht0 (by linarith [min_le_right p0 p2] : 0 ≤ p2 - Min.min p0 p2)]
      calc Min.min (Min.min p0 p2) (qval p0 p1 p2) ≤ Min.min p0 p2 := min_le_left _ _
        _ ≤ _ := le_trans hcc hchord
    · have : (1 - t) * (1 - t) * p0 + 2 * (1 - t) * t * p1 + t * t * p2
          ≤ qval p0 p1 p2 := by
        rw [hq]; nlinarith [sq_nonneg (u - t), hu, hD]
      calc (1 - t) * (1 - t) * p0 + 2 * (1 - t) * t * p1 + t * t * p2
          ≤ qval p0 p1 p2 := this
        _ ≤ Max.max (Max.max p0 p2) (qval p0 p1 p2) := le_max_right _ _

/-- C2: for a non-degenerate curve every analytic curve point at `t` in
[0,1] lies component-wise inside the box returned by `bounding_box`. -/
theorem bounding_box_contains (q : QuadCurve ℝ) (hne : q.a ≠ q.c)
    (t : ℝ) (ht0 : 0 ≤ t) (ht1 : t ≤ 1) :
    (q.bounding_box.1.x ≤ (q.point t).x ∧ q.bounding_box.1.y ≤ (q.point t).y)
    ∧ ((q.point t).x ≤ q.bounding_box.2.x ∧ (q.point t).y ≤ q.bounding_box.2.y) := by
  obtain ⟨⟨a1, a2⟩, ⟨b1, b2⟩, ⟨c1, c2⟩⟩ := q
  by_cases hcond :
      (b1 < Min.min a1 c1 ∨ b1 > Max.max a1 c1 ∨ b2 < Min.min a2 c2 ∨ b2 > Max.max a2 c2)
  · have hx := scalar_ext_bounds a1 b1 c1 t ht0 ht1
    have hy := scalar_ext_bounds a2 b2 c2 t ht0 ht1
    simp only [qval] at hx hy
    simp only [QuadCurve.bounding_box, QuadCurve.point, Vec2.min, Vec2.max,
      Vec2.add_x, Vec2.add_y, Vec2.sub_x, Vec2.sub_y, Vec2.mul_x, Vec2.mul_y,
      Vec2.div_x, Vec2.div_y, Vec2.smul_x, Vec2.smul_y, vec2_x, vec2_y]
    rw [if_pos (by simpa [Vec2.min, Vec2.max] using hcond)]
    exact ⟨⟨hx.1, hy.1⟩, ⟨hx.2, hy.2⟩⟩
  · have hcond2 := hcond
    push_neg at hcond2
    obtain ⟨h1, h2, h3, h4⟩ := hcond2
    have hx := scalar_inside_bounds a1 b1 c1 t ht0 ht1 h1 h2
    have hy := scalar_inside_bounds a2 b2 c2 t ht0 ht1 h3 h4
    simp only [QuadCurve.bounding_box, QuadCurve.point, Vec2.min, Vec2.max,
      Vec2.add_x, Vec2.add_y, Vec2.sub_x, Vec2.sub_y, Vec2.mul_x, Vec2.mul_y,
      Vec2.div_x, Vec2.div_y, Vec2.smul_x, Vec2.smul_y, vec2_x, vec2_y]
    rw [if_neg (by simpa [Vec2.min, Vec2.max] using hcond)]
    exact ⟨⟨hx.1, hy.1⟩, ⟨hx.2, hy.2⟩⟩

/-- Witness for C2 at a concrete curve and parameter. -/
theorem bounding_box_contains_witness :
    ((⟨vec2 0 0, vec2 1 3, vec2 2 0⟩ : QuadCurve ℝ).a
        ≠ (⟨vec2 0 0, vec2 1 3, vec2 2 0⟩ : QuadCurve ℝ).c)
    ∧ ((0:ℝ) ≤ 1/2) ∧ ((1/2:ℝ) ≤ 1)
    ∧ (((⟨vec2 0 0, vec2 1 3, vec2 2 0⟩ : QuadCurve ℝ).bounding_box.1.x
          ≤ ((⟨vec2 0 0, vec2 1 3, vec2 2 0⟩ : QuadCurve ℝ).point (1/2)).x
        ∧ (⟨vec2 0 0, vec2 1 3, vec2 2 0⟩ : QuadCurve ℝ).bounding_box.1.y
          ≤ ((⟨vec2 0 0, vec2 1 3, vec2 2 0⟩ : QuadCurve ℝ).point (1/2)).y)
      ∧ (((⟨vec2 0 0, vec2 1 3, vec2 2 0⟩ : QuadCurve ℝ).point (1/2)).x
          ≤ (⟨vec2 0 0, vec2 1 3, vec2 2 0⟩ : QuadCurve ℝ).bounding_box.2.x
        ∧ ((⟨vec2 0 0, vec2 1 3, vec2 2 0⟩ : QuadCurve ℝ).point (1/2)).y
          ≤ (⟨vec2 0 0, vec2 1 3, vec2 2 0⟩ : QuadCurve ℝ).bounding_box.2.y)) := by
  have hne : (⟨vec2 0 0, vec2 1 3, vec2 2 0⟩ : QuadCurve ℝ).a
      ≠ (⟨vec2 0 0, vec2 1 3, vec2 2 0⟩ : QuadCurve ℝ).c := by
    simp [Vec2.ext_iff, vec2]
  exact ⟨hne, by norm_num, by norm_num,
    bounding_box_contains ⟨vec2 0 0, vec2 1 3, vec2 2 0⟩ hne (1/2)
      (by norm_num) (by norm_num)⟩

/-- Euclidean length, mirroring `glam::Vec2::length` (`dot(self, self).sqrt()`). -/
noncomputable def Vec2.length (v : Vec2 ℝ) : ℝ := Real.sqrt (v.dot v)

/-- Normalization, mirroring `glam::Vec2::normalize`
(`self * self.length_recip()`).  In this idealized real-number model the
reciprocal of length 0 is 0; the IEEE behaviour (0 * inf = NaN) is modelled
separately by the non-finiteness-tracking embedding below. -/
noncomputable def Vec2.normalize (v : Vec2 ℝ) : Vec2 ℝ := (1 / v.length) * v

/-- Render vertex, mirroring `Vertex` from `geometry.rs`. -/
structure Vertex where
  position : Vec2 ℝ
  curve : QuadCurve ℝ
  thickness : ℝ

/-- The chord-aligned inflated bounding quad, `QuadCurve::optimal_bb` from
`geometry.rs`, translated line by line. -/
noncomputable def QuadCurve.optimal_bb (q : QuadCurve ℝ) (width : ℝ) :
    Vec2 ℝ × Vec2 ℝ × Vec2 ℝ × Vec2 ℝ :=
  let dir := q.c - q.a
  let ndir := dir.normalize
  let ox := vec2 (1 : ℝ) 0
  let sinb := wedge ndir ox
  let cosb := (q.c - q.a).normalize.dot ox
  let p0 := q.a
  let p0p1 := q.control - q.a
  let p1 := p0 + rot p0p1 cosb sinb
  let p2 := p0 + vec2 dir.length 0
  let mi0 := p0.min p2
  let ma0 := p0.max p2
  let mima :=
    if p1.x < mi0.x ∨ p1.x > ma0.x ∨ p1.y < mi0.y ∨ p1.y > ma0.y then
      let t := (p0 - p1) / (p0 - (2 : ℝ) * p1 + p2)
      let t := vec2 (clamp t.x) (clamp t.y)
      let s := vec2 (1 : ℝ) 1 - t
      let qq := s * s * p0 + (2 : ℝ) * s * t * p1 + t * t * p2
      (mi0.min qq, ma0.max qq)
    else
      (mi0, ma0)
  let mima2 := bounding_box_frame mima.1 mima.2 width
  let mi := mima2.1
  let ma := mima2.2
  let ma_rotated := p0 + rot (ma - p0) cosb (-sinb)
  let mi_rotated := p0 + rot (mi - p0) cosb (-sinb)
  let offset := (ndir.dot (mi_rotated - ma_rotated)) * ndir
  let b := ma_rotated + offset
  let d := mi_rotated - offset
  (mi_rotated, b, ma_rotated, d)

/-- Per-curve geometry, `QuadCurve::vertices` from `geometry.rs`: the four
quad corners tagged with the owning curve and the thickness, plus the
two-triangle index pattern. -/
noncomputable def QuadCurve.vertices (q : QuadCurve ℝ) (width : ℝ) :
    List Vertex × List ℕ :=
  let r := q.optimal_bb width
  ([⟨r.1, q, width⟩, ⟨r.2.1, q, width⟩, ⟨r.2.2.1, q, width⟩, ⟨r.2.2.2, q, width⟩],
    [0, 1, 2, 0, 2, 3])

/-- Whole-path geometry, `BezierPath::vertices` from `geometry.rs`.  The
Rust code casts `vertices.len()` to `u16` before offsetting the per-curve
indices; the cast is modelled by reduction modulo 65536 (the subsequent
`u16` addition of a value at most 3 to a multiple of 4 reduced modulo 65536
cannot wrap, so it is modelled as plain addition). -/
noncomputable def BezierPath.vertices (path : BezierPath ℝ) (width : ℝ) :
    List Vertex × List ℕ :=
  path.curves.foldl
    (fun acc curve =>
      let vi := curve.vertices width
      let indices_size := acc.1.length % 65536
      (acc.1 ++ vi.1, acc.2 ++ vi.2.map (fun i => indices_size + i)))
    ([], [])

/-- Closed form of the index stream produced by `BezierPath::vertices` when
the accumulated vertex list has length `base`. -/
def idxs (base n : ℕ) : List ℕ :=
  (List.range n).flatMap
    (fun k => [0, 1, 2, 0, 2, 3].map (fun i => (base + 4 * k) % 65536 + i))

lemma idxs_zero (base : ℕ) : idxs base 0 = [] := rfl

lemma flatMap_congr_on {α β : Type} (l : List α) (f g : α → List β)
    (h : ∀ a ∈ l, f a = g a) : l.flatMap f = l.flatMap g := by
  induction l with
  | nil => rfl
  | cons a l ih =>
      rw [List.flatMap_cons, List.flatMap_cons, h a (List.mem_cons_self a l),
        ih (fun b hb => h b (List.mem_cons_of_mem a hb))]

lemma idxs_succ (base n : ℕ) :
    idxs base (n + 1)
      = [0, 1, 2, 0, 2, 3].map (fun i => base % 65536 + i) ++ idxs (base + 4) n := by
  unfold idxs
  rw [List.range_succ_eq_map, List.flatMap_cons, List.flatMap_map]
  refine congrArg₂ (· ++ ·) (by simp) ?_
  refine flatMap_congr_on _ _ _ (fun k _ => ?_)
  rw [show base + 4 * Nat.succ k = base + 4 + 4 * k from by omega]

lemma flatMap_six_length (g : ℕ → ℕ → ℕ) (n : ℕ) :
    ((List.range n).flatMap (fun k => [0, 1, 2, 0, 2, 3].map (g k))).length = 6 * n := by
  induction n with
  | zero => rfl
  | succ m ih =>
      rw [List.range_succ, List.flatMap_append]
      simp only [List.length_append, ih]
      simp [Nat.mul_succ]

lemma idxs_length (base n : ℕ) : (idxs base n).length = 6 * n :=
  flatMap_six_length (fun k i => (base + 4 * k) % 65536 + i) n

/-- Unfolded form of the `BezierPath::vertices` fold with an arbitrary
accumulator. -/
lemma vertices_foldl_spec (w : ℝ) (cs : List (QuadCurve ℝ)) :
    ∀ accv acci,
      cs.foldl
        (fun acc curve =>
          let vi := curve.vertices w
          let indices_size := acc.1.length % 65536
          (acc.1 ++ vi.1, acc.2 ++ vi.2.map (fun i => indices_size + i)))
        (accv, acci)
      = (accv ++ cs.flatMap (fun c => (c.vertices w).1),
          acci ++ idxs accv.length cs.length) := by
  induction cs with
  | nil => intro accv acci; simp [idxs_zero]
  | cons c cs ih =>
      intro accv acci
      rw [List.foldl_cons, ih]
      rw [List.flatMap_cons, List.length_cons, idxs_succ]
      simp [QuadCurve.vertices, List.append_assoc, List.length_append]

lemma path_vertices_fst (path : BezierPath ℝ) (w : ℝ) :
    (path.vertices w).1 = path.curves.flatMap (fun c => (c.vertices w).1) := by
  unfold BezierPath.vertices
  rw [vertices_foldl_spec]
  simp

lemma path_vertices_snd (path : BezierPath ℝ) (w : ℝ) :
    (path.vertices w).2 = idxs 0 path.curves.length := by
  unfold BezierPath.vertices
  rw [vertices_foldl_spec]
  simp

lemma idxs_mem_lt (n : ℕ) {x : ℕ} (hx : x ∈ idxs 0 n) : x < 65536 := by
  rw [idxs, List.mem_flatMap] at hx
  obtain ⟨k, _, hk⟩ := hx
  rw [List.mem_map] at hk
  obtain ⟨i, hi, rfl⟩ := hk
  have h4 : (0 + 4 * k) % 65536 = 4 * (k % 16384) := by
    rw [Nat.zero_add]
    have : (65536 : ℕ) = 4 * 16384 := by norm_num
    rw [this, Nat.mul_mod_mul_left]
  have hk' : k % 16384 < 16384 := Nat.mod_lt _ (by norm_num)
  have hi' : i ≤ 3 := by
    simp only [List.mem_cons, List.not_mem_nil, or_false] at hi
    rcases hi with rfl | rfl | rfl | rfl | rfl | rfl <;> norm_num
  rw [h4]
  omega

/-- The full content of claim C8, stated for an arbitrary path: vertex and
index counts, the exact per-curve index pattern offset by the running vertex
count with no wrap-around, and the per-vertex curve/thickness tags in curve
order. -/
def IndexPatternStatement (path : BezierPath ℝ) (w : ℝ) : Prop :=
  (path.vertices w).1.length = 4 * path.curves.length
  ∧ (path.vertices w).2.length = 6 * path.curves.length
  ∧ (path.vertices w).2
      = (List.range path.curves.length).flatMap
          (fun k => [0, 1, 2, 0, 2, 3].map (fun i => 4 * k + i))
  ∧ (path.vertices w).1.map (fun v => (v.curve, v.thickness))
      = path.curves.flatMap (fun c => List.replicate 4 (c, w))

lemma flatMap_vertices_length (w : ℝ) (cs : List (QuadCurve ℝ)) :
    (cs.flatMap (fun c => (c.vertices w).1)).length = 4 * cs.length := by
  induction cs with
  | nil => rfl
  | cons c cs ih =>
      rw [List.flatMap_cons, List.length_append, ih]
      simp [QuadCurve.vertices, Nat.mul_succ]
      omega

lemma flatMap_vertices_tags (w : ℝ) (cs : List (QuadCurve ℝ)) :
    (cs.flatMap (fun c => (c.vertices w).1)).map (fun v => (v.curve, v.thickness))
      = cs.flatMap (fun c => List.replicate 4 (c, w)) := by
  induction cs with
  | nil => rfl
  | cons c cs ih =>
      rw [List.flatMap_cons, List.map_append, ih, List.flatMap_cons]
      rfl

/-- C8 amended: for at most 16384 committed curves `vertices(width)` yields
exactly 4N vertices and 6N indices, the six indices of curve `k` are the
pattern 0,1,2,0,2,3 offset by the running vertex count `4k` (hence inside
`[4k, 4k+4)`), every vertex carries its curve and `thickness = width`, and
curve order is preserved.  Beyond 16384 curves the `u16` cast of the running
vertex count wraps and the offsets are taken modulo 65536. -/
theorem vertices_index_pattern (path : BezierPath ℝ) (w : ℝ)
    (hN : path.curves.length ≤ 16384) : IndexPatternStatement path w := by
  refine ⟨?_, ?_, ?_, ?_⟩
  · rw [path_vertices_fst, flatMap_vertices_length]
  · rw [path_vertices_snd, idxs_length]
  · rw [path_vertices_snd]
    refine flatMap_congr_on _ _ _ (fun k hk => ?_)
    have hk' : k < 16384 := lt_of_lt_of_le (List.mem_range.mp hk) hN
    rw [show (0 + 4 * k) % 65536 = 4 * k from by omega]
  · rw [path_vertices_fst, flatMap_vertices_tags]

/-- Witness for C8 amended at a concrete one-curve path. -/
theorem vertices_index_pattern_witness :
    ((⟨none, none, [⟨vec2 0 0, vec2 1 2, vec2 3 0⟩]⟩ : BezierPath ℝ).curves.length
        ≤ 16384)
    ∧ IndexPatternStatement ⟨none, none, [⟨vec2 0 0, vec2 1 2, vec2 3 0⟩]⟩ 1 :=
  ⟨by norm_num,
    vertices_index_pattern ⟨none, none, [⟨vec2 0 0, vec2 1 2, vec2 3 0⟩]⟩ 1
      (by norm_num)⟩

/-- C8 counterexample: with 16385 committed curves the `u16` cast of the
running vertex count wraps, so the indices of the final curve are not the
claimed `4k + pattern` values; the claim as stated (for every N) is false. -/
theorem vertices_index_pattern_wraps :
    ¬ IndexPatternStatement
        ⟨none, none, List.replicate 16385 ⟨vec2 0 0, vec2 0 0, vec2 0 0⟩⟩ 1 := by
  intro h
  obtain ⟨_, _, h3, _⟩ := h
  rw [path_vertices_snd] at h3
  have hlen : (⟨none, none,
      List.replicate 16385 ⟨vec2 0 0, vec2 0 0, vec2 0 0⟩⟩ : BezierPath ℝ).curves.length
      = 16385 := List.length_replicate _ _
  rw [hlen] at h3
  have hmem : (65536 : ℕ) ∈ (List.range 16385).flatMap
      (fun k => [0, 1, 2, 0, 2, 3].map (fun i => 4 * k + i)) := by
    refine List.mem_flatMap.mpr ⟨16384, List.mem_range.mpr (by norm_num), ?_⟩
    exact List.mem_map.mpr ⟨0, by simp, by norm_num⟩
  rw [← h3] at hmem
  exact absurd (idxs_mem_lt 16385 hmem) (by norm_num)

/-- Squared Euclidean distance between two points. -/
def sq_dist (u v : Vec2 ℝ) : ℝ := (u.x - v.x) ^ 2 + (u.y - v.y) ^ 2

/-- Membership in the convex hull of the four corner points of a quad. -/
def InQuad (v0 v1 v2 v3 p : Vec2 ℝ) : Prop :=
  ∃ l0 l1 l2 l3 : ℝ, 0 ≤ l0 ∧ 0 ≤ l1 ∧ 0 ≤ l2 ∧ 0 ≤ l3 ∧ l0 + l1 + l2 + l3 = 1
    ∧ l0 * v0 + l1 * v1 + l2 * v2 + l3 * v3 = p

/-- The four corners, in the order returned, form a rectangle: consecutive
opposite sides are equal and adjacent sides are orthogonal. -/
def IsRectangle (v0 v1 v2 v3 : Vec2 ℝ) : Prop :=
  v1 - v0 = v2 - v3 ∧ (v1 - v0).dot (v3 - v0) = 0

/-- The longer of the two adjacent sides of the quad is parallel to the
chord (the literal reading of the claim about the long axis). -/
def LongAxisParallelChord (v0 v1 v3 chord : Vec2 ℝ) : Prop :=
  ((v3 - v0).dot (v3 - v0) ≤ (v1 - v0).dot (v1 - v0) → wedge (v1 - v0) chord = 0)
  ∧ ((v1 - v0).dot (v1 - v0) ≤ (v3 - v0).dot (v3 - v0) → wedge (v3 - v0) chord = 0)

/-- Every point within distance `w` of a curve point lies inside the quad. -/
def ContainsInflated (q : QuadCurve ℝ) (w : ℝ) (v0 v1 v2 v3 : Vec2 ℝ) : Prop :=
  ∀ t p, 0 ≤ t → t ≤ 1 → sq_dist p (q.point t) ≤ w ^ 2 → InQuad v0 v1 v2 v3 p

/-- The full content of claim C1 for one curve and width, as stated: the
corners of `optimal_bb` form a rectangle whose long axis is parallel to the
chord and which contains the inflated curve. -/
def TightQuadClaim (q : QuadCurve ℝ) (w : ℝ) : Prop :=
  IsRectangle (q.optimal_bb w).1 (q.optimal_bb w).2.1
    (q.optimal_bb w).2.2.1 (q.optimal_bb w).2.2.2
  ∧ LongAxisParallelChord (q.optimal_bb w).1 (q.optimal_bb w).2.1
      (q.optimal_bb w).2.2.2 (q.c - q.a)
  ∧ ContainsInflated q w (q.optimal_bb w).1 (q.optimal_bb w).2.1
      (q.optimal_bb w).2.2.1 (q.optimal_bb w).2.2.2

lemma rot_rot_inv (p : Vec2 ℝ) (cb sb : ℝ) (h : cb ^ 2 + sb ^ 2 = 1) :
    rot (rot p cb sb) cb (-sb) = p := by
  rw [Vec2.ext_iff]
  refine ⟨?_, ?_⟩ <;> simp only [rot, vec2_x, vec2_y]
  · linear_combination p.x * h
  · linear_combination p.y * h

lemma rot_inv_rot (p : Vec2 ℝ) (cb sb : ℝ) (h : cb ^ 2 + sb ^ 2 = 1) :
    rot (rot p cb (-sb)) cb sb = p := by
  rw [Vec2.ext_iff]
  refine ⟨?_, ?_⟩ <;> simp only [rot, vec2_x, vec2_y]
  · linear_combination p.x * h
  · linear_combination p.y * h

/-- Geometric assembly step of `optimal_bb`: rotating the two inflated box
corners back to world space and squaring the quad up with the projection
offset produces a rectangle with a side pair along the rotated x-axis, and
every point whose aligned image lies in the box lies in the quad. -/
lemma quad_assembly (p0 : Vec2 ℝ) (cb sb : ℝ) (mi ma v0 v1 v2 v3 off : Vec2 ℝ)
    (h1 : cb ^ 2 + sb ^ 2 = 1)
    (hv0 : v0 = p0 + rot (mi - p0) cb (-sb))
    (hv2 : v2 = p0 + rot (ma - p0) cb (-sb))
    (hoff : off = (Vec2.dot (vec2 cb (-sb)) (v0 - v2)) * vec2 cb (-sb))
    (hv1 : v1 = v2 + off) (hv3 : v3 = v0 - off)
    (hx : mi.x < ma.x) (hy : mi.y ≤ ma.y) :
    IsRectangle v0 v1 v2 v3
    ∧ wedge (v3 - v0) (vec2 cb (-sb)) = 0
    ∧ ∀ P : Vec2 ℝ,
        mi.x ≤ (p0 + rot (P - p0) cb sb).x → (p0 + rot (P - p0) cb sb).x ≤ ma.x →
        mi.y ≤ (p0 + rot (P - p0) cb sb).y → (p0 + rot (P - p0) cb sb).y ≤ ma.y →
        InQuad v0 v1 v2 v3 P := by
  obtain ⟨m1, m2⟩ := mi
  obtain ⟨M1, M2⟩ := ma
  obtain ⟨a1, a2⟩ := p0
  simp only [vec2_x, vec2_y] at hx hy
  have hoffval : off = (m1 - M1) * vec2 cb (-sb) := by
    rw [hoff, hv0, hv2, Vec2.ext_iff]
    constructor
    · simp only [Vec2.dot, Vec2.smul_x, Vec2.add_x, Vec2.sub_x, Vec2.add_y,
        Vec2.sub_y, vec2_x, vec2_y, rot]
      linear_combination (m1 - M1) * cb * h1
    · simp only [Vec2.dot, Vec2.smul_y, Vec2.add_x, Vec2.sub_x, Vec2.add_y,
        Vec2.sub_y, vec2_x, vec2_y, rot]
      linear_combination (M1 - m1) * sb * h1
  refine ⟨⟨?_, ?_⟩, ?_, ?_⟩
  · rw [hv1, hv3, Vec2.ext_iff]
    constructor <;> simp <;> ring
  · rw [hv1, hv3, hoffval, hv0, hv2]
    simp only [Vec2.dot, Vec2.add_x, Vec2.add_y, Vec2.sub_x, Vec2.sub_y,
      Vec2.smul_x, Vec2.smul_y, vec2_x, vec2_y, rot]
    ring
  · rw [hv3, hoffval]
    simp only [wedge, Vec2.sub_x, Vec2.sub_y, Vec2.smul_x, Vec2.smul_y, vec2_x, vec2_y]
    ring
  · intro P hx1 hx2 hy1 hy2
    set Ax : ℝ := a1 + (cb * (P.x - a1) - sb * (P.y - a2)) with hAx
    set Ay : ℝ := a2 + (sb * (P.x - a1) + cb * (P.y - a2)) with hAy
    have hx1' : m1 ≤ Ax := by simpa [rot, hAx] using hx1
    have hx2' : Ax ≤ M1 := by simpa [rot, hAx] using hx2
    have hy1' : m2 ≤ Ay := by simpa [rot, hAy] using hy1
    have hy2' : Ay ≤ M2 := by simpa [rot, hAy] using hy2
    set lx : ℝ := (Ax - m1) / (M1 - m1) with hlx
    set ly : ℝ := (Ay - m2) / (M2 - m2) with hly
    have hlx0 : 0 ≤ lx := div_nonneg (by linarith) (by linarith)
    have hlx1 : lx ≤ 1 := (div_le_one (by linarith)).mpr (by linarith)
    have hrecx : m1 + lx * (M1 - m1) = Ax := by
      rw [hlx, div_mul_cancel₀ _ (ne_of_gt (show (0:ℝ) < M1 - m1 by linarith))]
      ring
    have hly01 : (0 ≤ ly ∧ ly ≤ 1) ∧ m2 + ly * (M2 - m2) = Ay := by
      rcases eq_or_lt_of_le hy with heq | hlt
      · have hAy2 : Ay = m2 := le_antisymm (heq ▸ hy2') hy1'
        rw [hly, hAy2, ← heq]
        norm_num
      · refine ⟨⟨div_nonneg (by linarith) (by linarith),
          (div_le_one (by linarith)).mpr (by linarith)⟩, ?_⟩
        rw [hly, div_mul_cancel₀ _ (ne_of_gt (show (0:ℝ) < M2 - m2 by linarith))]
        ring
    obtain ⟨⟨hly0, hly1⟩, hrecy⟩ := hly01
    refine ⟨(1 - lx) * (1 - ly), (1 - lx) * ly, lx * ly, lx * (1 - ly),
      mul_nonneg (by linarith) (by linarith), mul_nonneg (by linarith) hly0,
      mul_nonneg hlx0 hly0, mul_nonneg hlx0 (by linarith), by ring, ?_⟩
    have hcombo :
        ((1 - lx) * (1 - ly)) * v0 + ((1 - lx) * ly) * v1 + (lx * ly) * v2
          + (lx * (1 - ly)) * v3
        = vec2 a1 a2
          + rot (vec2 (m1 + lx * (M1 - m1)) (m2 + ly * (M2 - m2)) - vec2 a1 a2)
              cb (-sb) := by
      rw [hv1, hv3, hoffval, hv0, hv2, Vec2.ext_iff]
      constructor <;>
        · simp only [Vec2.add_x, Vec2.add_y, Vec2.sub_x, Vec2.sub_y,
            Vec2.smul_x, Vec2.smul_y, vec2_x, vec2_y, rot]
          ring
    rw [hcombo, hrecx, hrecy]
    have hP : vec2 Ax Ay = vec2 a1 a2 + rot (P - vec2 a1 a2) cb sb := by
      rw [Vec2.ext_iff]
      constructor <;> simp [rot, hAx, hAy]
    rw [hP]
    have : vec2 a1 a2 + rot (P - vec2 a1 a2) cb sb - vec2 a1 a2
        = rot (P - vec2 a1 a2) cb sb := by
      rw [Vec2.ext_iff]; constructor <;> simp
    rw [this, rot_rot_inv _ _ _ h1, Vec2.ext_iff]
    constructor <;> simp

lemma wedge_smul_right (u v : Vec2 ℝ) (r : ℝ) : wedge u (r * v) = r * wedge u v := by
  simp only [wedge, Vec2.smul_x, Vec2.smul_y]
  ring

theorem optimal_bb_contains (q : QuadCurve ℝ) (w : ℝ) (hne : q.a ≠ q.c) (hw : 0 ≤ w) :
    IsRectangle (q.optimal_bb w).1 (q.optimal_bb w).2.1
      (q.optimal_bb w).2.2.1 (q.optimal_bb w).2.2.2
    ∧ wedge ((q.optimal_bb w).2.2.2 - (q.optimal_bb w).1) (q.c - q.a) = 0
    ∧ ContainsInflated q w (q.optimal_bb w).1 (q.optimal_bb w).2.1
        (q.optimal_bb w).2.2.1 (q.optimal_bb w).2.2.2 := by
  obtain ⟨⟨a1, a2⟩, ⟨b1, b2⟩, ⟨c1, c2⟩⟩ := q
  have hdd : 0 < (c1 - a1) * (c1 - a1) + (c2 - a2) * (c2 - a2) := by
    rcases em (c1 - a1 = 0) with h1 | h1
    · have h2 : c2 - a2 ≠ 0 := by
        intro h2
        exact hne (by rw [Vec2.ext_iff]; constructor <;> simp <;> linarith
          [sub_eq_zero.mp h1, sub_eq_zero.mp h2])
      nlinarith [mul_self_nonneg (c1 - a1), mul_self_pos.mpr h2]
    · nlinarith [mul_self_nonneg (c2 - a2), mul_self_pos.mpr h1]
  simp only [QuadCurve.optimal_bb, bounding_box_frame]
  set DIRv : Vec2 ℝ := Vec2.mk c1 c2 - Vec2.mk a1 a2 with hDIR
  set NDv : Vec2 ℝ := DIRv.normalize with hND
  set SBv : ℝ := wedge NDv (vec2 1 0) with hSB
  set CBv : ℝ := NDv.dot (vec2 1 0) with hCB
  set Lv : ℝ := DIRv.length with hLv
  set P1v : Vec2 ℝ := Vec2.mk a1 a2 + rot (Vec2.mk b1 b2 - Vec2.mk a1 a2) CBv SBv with hP1
  set P2v : Vec2 ℝ := Vec2.mk a1 a2 + vec2 Lv 0 with hP2
  have hLpos : 0 < Lv := by
    rw [hLv, hDIR, Vec2.length]
    exact Real.sqrt_pos.mpr (by simpa [Vec2.dot] using hdd)
  have hLne : Lv ≠ 0 := ne_of_gt hLpos
  have hL2 : Lv * Lv = (c1 - a1) * (c1 - a1) + (c2 - a2) * (c2 - a2) := by
    rw [hLv, hDIR, Vec2.length]
    have := Real.mul_self_sqrt (le_of_lt (by simpa [Vec2.dot] using hdd :
      (0:ℝ) < (Vec2.mk c1 c2 - Vec2.mk a1 a2).dot (Vec2.mk c1 c2 - Vec2.mk a1 a2)))
    simpa [Vec2.dot] using this
  have hNDxy : NDv = vec2 (1 / Lv * (c1 - a1)) (1 / Lv * (c2 - a2)) := by
    rw [hND]
    unfold Vec2.normalize
    rw [← hLv, hDIR, Vec2.ext_iff]
    constructor <;> simp
  have hCBval : CBv = 1 / Lv * (c1 - a1) := by
    rw [hCB, hNDxy]; simp [Vec2.dot]
  have hSBval : SBv = -(1 / Lv * (c2 - a2)) := by
    rw [hSB, hNDxy]; simp [wedge]
  have hNDval : NDv = vec2 CBv (-SBv) := by
    rw [hNDxy, hCBval, hSBval, Vec2.ext_iff]
    constructor <;> simp
  have hcs1 : CBv ^ 2 + SBv ^ 2 = 1 := by
    rw [hCBval, hSBval]
    field_simp
    linear_combination -hL2
  have hdir1 : CBv * (c1 - a1) - SBv * (c2 - a2) = Lv := by
    rw [hCBval, hSBval]
    field_simp
    linear_combination -hL2
  have hdir2 : SBv * (c1 - a1) + CBv * (c2 - a2) = 0 := by
    rw [hCBval, hSBval]
    field_simp
    ring
  have hDIRval : DIRv = Lv * vec2 CBv (-SBv) := by
    rw [hDIR, hCBval, hSBval, Vec2.ext_iff]
    constructor <;> · simp; field_simp
  have hP1x : P1v.x = a1 + (CBv * (b1 - a1) - SBv * (b2 - a2)) := by
    rw [hP1]; simp [rot]
  have hP1y : P1v.y = a2 + (SBv * (b1 - a1) + CBv * (b2 - a2)) := by
    rw [hP1]; simp [rot]
  have hP2x : P2v.x = a1 + Lv := by rw [hP2]; simp
  have hP2y : P2v.y = a2 := by rw [hP2]; simp
  have halign : ∀ t : ℝ,
      Vec2.mk a1 a2
          + rot (QuadCurve.point ⟨⟨a1,a2⟩,⟨b1,b2⟩,⟨c1,c2⟩⟩ t - Vec2.mk a1 a2) CBv SBv
        = vec2 ((1-t)*(1-t)*a1 + 2*(1-t)*t*P1v.x + t*t*P2v.x)
            ((1-t)*(1-t)*a2 + 2*(1-t)*t*P1v.y + t*t*P2v.y) := by
    intro t
    rw [Vec2.ext_iff]
    constructor
    · simp only [QuadCurve.point, rot, Vec2.add_x, Vec2.add_y, Vec2.sub_x, Vec2.sub_y,
        Vec2.smul_x, Vec2.smul_y, vec2_x, vec2_y, hP1x, hP2x]
      linear_combination (t*t) * hdir1
    · simp only [QuadCurve.point, rot, Vec2.add_x, Vec2.add_y, Vec2.sub_x, Vec2.sub_y,
        Vec2.smul_x, Vec2.smul_y, vec2_x, vec2_y, hP1y, hP2y]
      linear_combination (t*t) * hdir2
  have main : ∀ MI MA : Vec2 ℝ,
      (∀ t : ℝ, 0 ≤ t → t ≤ 1 →
        (MI.x ≤ (1-t)*(1-t)*a1 + 2*(1-t)*t*P1v.x + t*t*P2v.x
          ∧ (1-t)*(1-t)*a1 + 2*(1-t)*t*P1v.x + t*t*P2v.x ≤ MA.x)
        ∧ (MI.y ≤ (1-t)*(1-t)*a2 + 2*(1-t)*t*P1v.y + t*t*P2v.y
          ∧ (1-t)*(1-t)*a2 + 2*(1-t)*t*P1v.y + t*t*P2v.y ≤ MA.y)) →
      MI.x + Lv ≤ MA.x → MI.y ≤ MA.y →
      IsRectangle (Vec2.mk a1 a2 + rot (MI - vec2 w w - Vec2.mk a1 a2) CBv (-SBv))
          (Vec2.mk a1 a2 + rot (MA + vec2 w w - Vec2.mk a1 a2) CBv (-SBv)
            + NDv.dot ((Vec2.mk a1 a2 + rot (MI - vec2 w w - Vec2.mk a1 a2) CBv (-SBv))
                - (Vec2.mk a1 a2 + rot (MA + vec2 w w - Vec2.mk a1 a2) CBv (-SBv))) * NDv)
          (Vec2.mk a1 a2 + rot (MA + vec2 w w - Vec2.mk a1 a2) CBv (-SBv))
          (Vec2.mk a1 a2 + rot (MI - vec2 w w - Vec2.mk a1 a2) CBv (-SBv)
            - NDv.dot ((Vec2.mk a1 a2 + rot (MI - vec2 w w - Vec2.mk a1 a2) CBv (-SBv))
                - (Vec2.mk a1 a2 + rot (MA + vec2 w w - Vec2.mk a1 a2) CBv (-SBv))) * NDv)
      ∧ wedge ((Vec2.mk a1 a2 + rot (MI - vec2 w w - Vec2.mk a1 a2) CBv (-SBv)
            - NDv.dot ((Vec2.mk a1 a2 + rot (MI - vec2 w w - Vec2.mk a1 a2) CBv (-SBv))
                - (Vec2.mk a1 a2 + rot (MA + vec2 w w - Vec2.mk a1 a2) CBv (-SBv))) * NDv)
          - (Vec2.mk a1 a2 + rot (MI - vec2 w w - Vec2.mk a1 a2) CBv (-SBv))) DIRv = 0
      ∧ ContainsInflated ⟨⟨a1,a2⟩,⟨b1,b2⟩,⟨c1,c2⟩⟩ w
          (Vec2.mk a1 a2 + rot (MI - vec2 w w - Vec2.mk a1 a2) CBv (-SBv))
          (Vec2.mk a1 a2 + rot (MA + vec2 w w - Vec2.mk a1 a2) CBv (-SBv)
            + NDv.dot ((Vec2.mk a1 a2 + rot (MI - vec2 w w - Vec2.mk a1 a2) CBv (-SBv))
                - (Vec2.mk a1 a2 + rot (MA + vec2 w w - Vec2.mk a1 a2) CBv (-SBv))) * NDv)
          (Vec2.mk a1 a2 + rot (MA + vec2 w w - Vec2.mk a1 a2) CBv (-SBv))
          (Vec2.mk a1 a2 + rot (MI - vec2 w w - Vec2.mk a1 a2) CBv (-SBv)
            - NDv.dot ((Vec2.mk a1 a2 + rot (MI - vec2 w w - Vec2.mk a1 a2) CBv (-SBv))
                - (Vec2.mk a1 a2 + rot (MA + vec2 w w - Vec2.mk a1 a2) CBv (-SBv))) * NDv) := by
    intro MI MA hbez hgx hgy
    set P0c : Vec2 ℝ := Vec2.mk a1 a2 with hP0c
    set V0 : Vec2 ℝ := P0c + rot (MI - vec2 w w - P0c) CBv (-SBv) with hV0
    set V2 : Vec2 ℝ := P0c + rot (MA + vec2 w w - P0c) CBv (-SBv) with hV2
    set OFF : Vec2 ℝ := NDv.dot (V0 - V2) * NDv with hOFF
    obtain ⟨hrect, hw0, hmem⟩ := quad_assembly P0c CBv SBv
      (MI - vec2 w w) (MA + vec2 w w) V0 (V2 + OFF) V2 (V0 - OFF) OFF
      hcs1 hV0 hV2 (by rw [hOFF, hNDval]) rfl rfl
      (by simp; linarith) (by simp; linarith)
    refine ⟨hrect, ?_, ?_⟩
    · rw [hDIRval, wedge_smul_right, hw0, mul_zero]
    · intro t p ht0 ht1 hdist
      have hb := hbez t ht0 ht1
      have ha := halign t
      have hdrot : P0c + rot (p - P0c) CBv SBv
          - (P0c + rot (QuadCurve.point ⟨⟨a1,a2⟩,⟨b1,b2⟩,⟨c1,c2⟩⟩ t - P0c) CBv SBv)
          = rot (p - QuadCurve.point ⟨⟨a1,a2⟩,⟨b1,b2⟩,⟨c1,c2⟩⟩ t) CBv SBv := by
        rw [Vec2.ext_iff]
        constructor <;> · simp [rot]; ring
      set BX : ℝ := (1-t)*(1-t)*a1 + 2*(1-t)*t*P1v.x + t*t*P2v.x with hBXd
      set BY : ℝ := (1-t)*(1-t)*a2 + 2*(1-t)*t*P1v.y + t*t*P2v.y with hBYd
      set AX : ℝ := (P0c + rot (p - P0c) CBv SBv).x with hAXd
      set AY : ℝ := (P0c + rot (p - P0c) CBv SBv).y with hAYd
      have hsq : (AX - BX) ^ 2 + (AY - BY) ^ 2 ≤ w ^ 2 := by
        have hx := congrArg Vec2.x hdrot
        have hy := congrArg Vec2.y hdrot
        rw [ha] at hx hy
        simp only [Vec2.sub_x, Vec2.sub_y, vec2_x, vec2_y, ← hAXd, ← hAYd] at hx hy
        rw [hx, hy]
        calc (rot (p - QuadCurve.point ⟨⟨a1,a2⟩,⟨b1,b2⟩,⟨c1,c2⟩⟩ t) CBv SBv).x ^ 2
              + (rot (p - QuadCurve.point ⟨⟨a1,a2⟩,⟨b1,b2⟩,⟨c1,c2⟩⟩ t) CBv SBv).y ^ 2
            = sq_dist p (QuadCurve.point ⟨⟨a1,a2⟩,⟨b1,b2⟩,⟨c1,c2⟩⟩ t) := by
              simp only [rot, sq_dist, Vec2.sub_x, Vec2.sub_y, vec2_x, vec2_y]
              linear_combination ((p.x - (QuadCurve.point ⟨⟨a1,a2⟩,⟨b1,b2⟩,⟨c1,c2⟩⟩ t).x) ^ 2
                + (p.y - (QuadCurve.point ⟨⟨a1,a2⟩,⟨b1,b2⟩,⟨c1,c2⟩⟩ t).y) ^ 2) * hcs1
          _ ≤ w ^ 2 := hdist
      apply hmem p
      · show (MI - vec2 w w).x ≤ AX
        have h1 : (MI - vec2 w w).x = MI.x - w := by simp
        rw [h1]
        nlinarith [hb.1.1, hsq, sq_nonneg (AX - BX + w), sq_nonneg (AY - BY), hw]
      · show AX ≤ (MA + vec2 w w).x
        have h1 : (MA + vec2 w w).x = MA.x + w := by simp
        rw [h1]
        nlinarith [hb.1.2, hsq, sq_nonneg (AX - BX - w), sq_nonneg (AY - BY), hw]
      · show (MI - vec2 w w).y ≤ AY
        have h1 : (MI - vec2 w w).y = MI.y - w := by simp
        rw [h1]
        nlinarith [hb.2.1, hsq, sq_nonneg (AY - BY + w), sq_nonneg (AX - BX), hw]
      · show AY ≤ (MA + vec2 w w).y
        have h1 : (MA + vec2 w w).y = MA.y + w := by simp
        rw [h1]
        nlinarith [hb.2.2, hsq, sq_nonneg (AY - BY - w), sq_nonneg (AX - BX), hw]
  set Tv : Vec2 ℝ := vec2 (clamp ((Vec2.mk a1 a2 - P1v) / (Vec2.mk a1 a2 - (2:ℝ) * P1v + P2v)).x)
      (clamp ((Vec2.mk a1 a2 - P1v) / (Vec2.mk a1 a2 - (2:ℝ) * P1v + P2v)).y) with hT
  set QQv : Vec2 ℝ := (vec2 1 1 - Tv) * (vec2 1 1 - Tv) * Vec2.mk a1 a2
      + (2:ℝ) * (vec2 1 1 - Tv) * Tv * P1v + Tv * Tv * P2v with hQQ
  have hQQx : QQv.x = qval a1 P1v.x P2v.x := by
    rw [hQQ, hT]
    simp only [qval, Vec2.mul_x, Vec2.sub_x, Vec2.add_x, Vec2.smul_x, Vec2.div_x,
      vec2_x, Vec2.mk_x]
  have hQQy : QQv.y = qval a2 P1v.y P2v.y := by
    rw [hQQ, hT]
    simp only [qval, Vec2.mul_y, Vec2.sub_y, Vec2.add_y, Vec2.smul_y, Vec2.div_y,
      vec2_y, Vec2.mk_y]
  split_ifs with hcond
  · apply main
    · intro t ht0 ht1
      have hx := scalar_ext_bounds a1 P1v.x P2v.x t ht0 ht1
      have hy := scalar_ext_bounds a2 P1v.y P2v.y t ht0 ht1
      refine ⟨⟨?_, ?_⟩, ?_, ?_⟩ <;>
        simp only [Vec2.min, Vec2.max, Vec2.mk_x, Vec2.mk_y, hQQx, hQQy]
      · exact hx.1
      · exact hx.2
      · exact hy.1
      · exact hy.2
    · simp only [Vec2.min, Vec2.max, Vec2.mk_x]
      have e1 : Min.min (Min.min a1 P2v.x) QQv.x ≤ Min.min a1 P2v.x := min_le_left _ _
      have e2 : Max.max a1 P2v.x ≤ Max.max (Max.max a1 P2v.x) QQv.x := le_max_left _ _
      have e3 : Min.min a1 P2v.x ≤ a1 := min_le_left _ _
      have e4 : P2v.x ≤ Max.max a1 P2v.x := le_max_right _ _
      linarith [hP2x]
    · simp only [Vec2.min, Vec2.max, Vec2.mk_y]
      have e1 : Min.min (Min.min a2 P2v.y) QQv.y ≤ Min.min a2 P2v.y := min_le_left _ _
      have e2 : Max.max a2 P2v.y ≤ Max.max (Max.max a2 P2v.y) QQv.y := le_max_left _ _
      have e3 : Min.min a2 P2v.y ≤ a2 := min_le_left _ _
      have e4 : a2 ≤ Max.max a2 P2v.y := le_max_left _ _
      linarith
  · push_neg at hcond
    simp only [Vec2.min, Vec2.max, Vec2.mk_x, Vec2.mk_y] at hcond
    obtain ⟨k1, k2, k3, k4⟩ := hcond
    apply main
    · intro t ht0 ht1
      have hx := scalar_inside_bounds a1 P1v.x P2v.x t ht0 ht1 k1 k2
      have hy := scalar_inside_bounds a2 P1v.y P2v.y t ht0 ht1 k3 k4
      refine ⟨⟨?_, ?_⟩, ?_, ?_⟩ <;>
        simp only [Vec2.min, Vec2.max, Vec2.mk_x, Vec2.mk_y]
      · exact hx.1
      · exact hx.2
      · exact hy.1
      · exact hy.2
    · simp only [Vec2.min, Vec2.max, Vec2.mk_x]
      have e3 : Min.min a1 P2v.x ≤ a1 := min_le_left _ _
      have e4 : P2v.x ≤ Max.max a1 P2v.x := le_max_right _ _
      linarith [hP2x]
    · simp only [Vec2.min, Vec2.max, Vec2.mk_y]
      have e3 : Min.min a2 P2v.y ≤ a2 := min_le_left _ _
      have e4 : a2 ≤ Max.max a2 P2v.y := le_max_left _ _
      linarith

/-- Witness for C1 amended at a concrete non-degenerate curve and width. -/
theorem optimal_bb_contains_witness :
    ((⟨vec2 0 0, vec2 1 2, vec2 2 0⟩ : QuadCurve ℝ).a
        ≠ (⟨vec2 0 0, vec2 1 2, vec2 2 0⟩ : QuadCurve ℝ).c)
    ∧ ((0:ℝ) ≤ 1)
    ∧ (IsRectangle ((⟨vec2 0 0, vec2 1 2, vec2 2 0⟩ : QuadCurve ℝ).optimal_bb 1).1
        ((⟨vec2 0 0, vec2 1 2, vec2 2 0⟩ : QuadCurve ℝ).optimal_bb 1).2.1
        ((⟨vec2 0 0, vec2 1 2, vec2 2 0⟩ : QuadCurve ℝ).optimal_bb 1).2.2.1
        ((⟨vec2 0 0, vec2 1 2, vec2 2 0⟩ : QuadCurve ℝ).optimal_bb 1).2.2.2
      ∧ wedge (((⟨vec2 0 0, vec2 1 2, vec2 2 0⟩ : QuadCurve ℝ).optimal_bb 1).2.2.2
            - ((⟨vec2 0 0, vec2 1 2, vec2 2 0⟩ : QuadCurve ℝ).optimal_bb 1).1)
          ((⟨vec2 0 0, vec2 1 2, vec2 2 0⟩ : QuadCurve ℝ).c
            - (⟨vec2 0 0, vec2 1 2, vec2 2 0⟩ : QuadCurve ℝ).a) = 0
      ∧ ContainsInflated ⟨vec2 0 0, vec2 1 2, vec2 2 0⟩ 1
          ((⟨vec2 0 0, vec2 1 2, vec2 2 0⟩ : QuadCurve ℝ).optimal_bb 1).1
          ((⟨vec2 0 0, vec2 1 2, vec2 2 0⟩ : QuadCurve ℝ).optimal_bb 1).2.1
          ((⟨vec2 0 0, vec2 1 2, vec2 2 0⟩ : QuadCurve ℝ).optimal_bb 1).2.2.1
          ((⟨vec2 0 0, vec2 1 2, vec2 2 0⟩ : QuadCurve ℝ).optimal_bb 1).2.2.2) := by
  have hne : (⟨vec2 0 0, vec2 1 2, vec2 2 0⟩ : QuadCurve ℝ).a
      ≠ (⟨vec2 0 0, vec2 1 2, vec2 2 0⟩ : QuadCurve ℝ).c := by
    rw [Ne, Vec2.ext_iff]
    norm_num
  exact ⟨hne, by norm_num,
    optimal_bb_contains ⟨vec2 0 0, vec2 1 2, vec2 2 0⟩ 1 hne (by norm_num)⟩

/-- The quad of the curve with endpoints (0,0), (1,0) and control (1/2, 10)
at width 0: it is the rectangle [0,1] x [0,5], whose long axis is vertical
while the chord is horizontal. -/
lemma optimal_bb_tall_example :
    QuadCurve.optimal_bb ⟨vec2 0 0, vec2 (1/2) 10, vec2 1 0⟩ 0
      = (vec2 0 0, vec2 0 5, vec2 1 5, vec2 1 0) := by
  simp only [QuadCurve.optimal_bb, bounding_box_frame]
  rw [show (vec2 (1:ℝ) 0 - vec2 (0:ℝ) 0) = vec2 (1:ℝ) 0 from by
    rw [Vec2.ext_iff]; constructor <;> norm_num]
  have hlen : (vec2 (1:ℝ) 0).length = 1 := by
    unfold Vec2.length
    simp [Vec2.dot, Real.sqrt_one]
  have hnorm : (vec2 (1:ℝ) 0).normalize = vec2 1 0 := by
    unfold Vec2.normalize
    rw [hlen, Vec2.ext_iff]
    constructor <;> norm_num
  rw [hnorm, hlen]
  rw [show wedge (vec2 (1:ℝ) 0) (vec2 1 0) = 0 from by simp [wedge]]
  rw [show (vec2 (1:ℝ) 0).dot (vec2 1 0) = 1 from by simp [Vec2.dot]]
  have hrot : ∀ p : Vec2 ℝ, rot p 1 (-0) = p := by
    intro p
    rw [Vec2.ext_iff]
    constructor <;> simp [rot]
  have hrot0 : ∀ p : Vec2 ℝ, rot p 1 0 = p := by
    intro p
    rw [Vec2.ext_iff]
    constructor <;> simp [rot]
  simp only [hrot, hrot0]
  rw [show vec2 (0:ℝ) 0 + (vec2 (1/2:ℝ) 10 - vec2 (0:ℝ) 0) = vec2 (1/2:ℝ) 10 from by
    rw [Vec2.ext_iff]; constructor <;> norm_num]
  rw [show vec2 (0:ℝ) 0 + vec2 (1:ℝ) 0 = vec2 (1:ℝ) 0 from by
    rw [Vec2.ext_iff]; constructor <;> norm_num]
  rw [show (vec2 (0:ℝ) 0).min (vec2 (1:ℝ) 0) = vec2 (0:ℝ) 0 from by
    simp [Vec2.min, Vec2.ext_iff]]
  rw [show (vec2 (0:ℝ) 0).max (vec2 (1:ℝ) 0) = vec2 (1:ℝ) 0 from by
    simp [Vec2.max, Vec2.ext_iff]]
  rw [if_pos (show (vec2 (1/2:ℝ) 10).x < (vec2 (0:ℝ) 0).x
      ∨ (vec2 (1/2:ℝ) 10).x > (vec2 (1:ℝ) 0).x
      ∨ (vec2 (1/2:ℝ) 10).y < (vec2 (0:ℝ) 0).y
      ∨ (vec2 (1/2:ℝ) 10).y > (vec2 (1:ℝ) 0).y from by
    right; right; right; norm_num)]
  rw [show ((vec2 (0:ℝ) 0 - vec2 (1/2:ℝ) 10) / (vec2 (0:ℝ) 0 - (2:ℝ) * vec2 (1/2:ℝ) 10
      + vec2 (1:ℝ) 0)).x = 0 from by norm_num]
  rw [show ((vec2 (0:ℝ) 0 - vec2 (1/2:ℝ) 10) / (vec2 (0:ℝ) 0 - (2:ℝ) * vec2 (1/2:ℝ) 10
      + vec2 (1:ℝ) 0)).y = 1/2 from by norm_num]
  rw [show clamp (0:ℝ) = 0 from by
    unfold clamp
    rw [if_neg (lt_irrefl 0), if_neg (by norm_num)]]
  rw [show clamp (1/2:ℝ) = 1/2 from by
    unfold clamp
    rw [if_neg (by norm_num), if_neg (by norm_num)]]
  rw [show (vec2 (1:ℝ) 1 - vec2 (0:ℝ) (1/2)) * (vec2 (1:ℝ) 1 - vec2 (0:ℝ) (1/2))
        * vec2 (0:ℝ) 0
      + (2:ℝ) * (vec2 (1:ℝ) 1 - vec2 (0:ℝ) (1/2)) * vec2 (0:ℝ) (1/2) * vec2 (1/2:ℝ) 10
      + vec2 (0:ℝ) (1/2) * vec2 (0:ℝ) (1/2) * vec2 (1:ℝ) 0 = vec2 (0:ℝ) 5 from by
    rw [Vec2.ext_iff]; constructor <;> norm_num]
  rw [show (vec2 (0:ℝ) 0).min (vec2 (0:ℝ) 5) = vec2 (0:ℝ) 0 from by
    simp [Vec2.min, Vec2.ext_iff]]
  rw [show (vec2 (1:ℝ) 0).max (vec2 (0:ℝ) 5) = vec2 (1:ℝ) 5 from by
    simp [Vec2.max, Vec2.ext_iff]]
  rw [show vec2 (0:ℝ) 0 - vec2 (0:ℝ) 0 = vec2 (0:ℝ) 0 from by
    rw [Vec2.ext_iff]; constructor <;> norm_num]
  rw [show vec2 (1:ℝ) 5 + vec2 (0:ℝ) 0 = vec2 (1:ℝ) 5 from by
    rw [Vec2.ext_iff]; constructor <;> norm_num]
  rw [show vec2 (0:ℝ) 0 + (vec2 (0:ℝ) 0 - vec2 (0:ℝ) 0) = vec2 (0:ℝ) 0 from by
    rw [Vec2.ext_iff]; constructor <;> norm_num]
  rw [show vec2 (0:ℝ) 0 + (vec2 (1:ℝ) 5 - vec2 (0:ℝ) 0) = vec2 (1:ℝ) 5 from by
    rw [Vec2.ext_iff]; constructor <;> norm_num]
  rw [show (vec2 (1:ℝ) 0).dot (vec2 (0:ℝ) 0 - vec2 (1:ℝ) 5) * vec2 (1:ℝ) 0
      = vec2 (-1:ℝ) 0 from by
    rw [Vec2.ext_iff]; constructor <;> simp [Vec2.dot]]
  rw [Prod.ext_iff, Prod.ext_iff, Prod.ext_iff]
  refine ⟨rfl, ?_, ?_, ?_⟩ <;> · rw [Vec2.ext_iff]; constructor <;> norm_num

/-- C1 counterexample: for the curve with endpoints (0,0), (1,0) and control
(1/2, 10) at width 0 the bounding quad is the rectangle [0,1] x [0,5]; its
long axis (length 5) is perpendicular to the chord (length 1), so the claim
as stated, with the long axis parallel to the chord, is false. -/
theorem optimal_bb_long_axis_fails :
    ¬ TightQuadClaim ⟨vec2 0 0, vec2 (1/2) 10, vec2 1 0⟩ 0 := by
  intro h
  obtain ⟨_, hpar, _⟩ := h
  rw [optimal_bb_tall_example] at hpar
  have h1 := hpar.1 (by simp [Vec2.dot]; norm_num)
  simp only [wedge, Vec2.sub_x, Vec2.sub_y, vec2_x, vec2_y] at h1
  norm_num at h1

open scoped Classical

/-- Addition on non-finiteness-tracking scalars: `some x` models a finite
IEEE value, `none` models a non-finite one (NaN or an infinity); every
operation below maps a non-finite operand to a non-finite result, which
matches IEEE arithmetic on all evaluation paths used in this file. -/
noncomputable def fadd : Option ℝ → Option ℝ → Option ℝ
  | some a, some b => some (a + b)
  | _, _ => none

/-- Subtraction on non-finiteness-tracking scalars. -/
noncomputable def fsub : Option ℝ → Option ℝ → Option ℝ
  | some a, some b => some (a - b)
  | _, _ => none

/-- Multiplication on non-finiteness-tracking scalars (note 0 * inf = NaN
in IEEE, so a non-finite operand always yields a non-finite result). -/
noncomputable def fmul : Option ℝ → Option ℝ → Option ℝ
  | some a, some b => some (a * b)
  | _, _ => none

/-- Division on non-finiteness-tracking scalars; division by zero yields a
non-finite value (inf or NaN in IEEE). -/
noncomputable def fdiv : Option ℝ → Option ℝ → Option ℝ
  | some a, some b => if b = 0 then none else some (a / b)
  | _, _ => none

/-- Negation on non-finiteness-tracking scalars. -/
noncomputable def fneg : Option ℝ → Option ℝ
  | some a => some (-a)
  | none => none

/-- Square root; negative arguments give NaN. -/
noncomputable def fsqrt : Option ℝ → Option ℝ
  | some a => if a < 0 then none else some (Real.sqrt a)
  | none => none

/-- Strict less-than; any comparison against a NaN is false in IEEE. -/
def fltP : Option ℝ → Option ℝ → Prop
  | some a, some b => a < b
  | _, _ => False

/-- Greater-or-equal; any comparison against a NaN is false in IEEE. -/
def fgeP : Option ℝ → Option ℝ → Prop
  | some a, some b => a ≥ b
  | _, _ => False

/-- Rust `f32::min` semantics: NaN operands are ignored when the other
operand is a number. -/
noncomputable def fminRust : Option ℝ → Option ℝ → Option ℝ
  | some a, some b => some (Min.min a b)
  | some a, none => some a
  | none, b => b

/-- Rust `f32::max` semantics. -/
noncomputable def fmaxRust : Option ℝ → Option ℝ → Option ℝ
  | some a, some b => some (Max.max a b)
  | some a, none => some a
  | none, b => b

/-- GLSL reference `min`: returns y if y is less than x, otherwise x. -/
noncomputable def fminGl (x y : Option ℝ) : Option ℝ := if fltP y x then y else x

/-- GLSL reference `max`: returns y if x is less than y, otherwise x. -/
noncomputable def fmaxGl (x y : Option ℝ) : Option ℝ := if fltP x y then y else x

/-- GLSL reference `clamp`: `min(max(x, lo), hi)`. -/
noncomputable def fclampGl (x lo hi : Option ℝ) : Option ℝ := fminGl (fmaxGl x lo) hi

/-- The scalar clamp from `geometry.rs` on non-finiteness-tracking scalars;
a NaN argument fails both comparisons and is returned unchanged. -/
noncomputable def fclampRust (a : Option ℝ) : Option ℝ :=
  if fltP a (some 0) then some 0 else if fltP (some 1) a then some 1 else a

/-- Absolute value. -/
noncomputable def fabs : Option ℝ → Option ℝ
  | some a => some |a|
  | none => none

/-- GLSL `sign`. -/
noncomputable def fsign : Option ℝ → Option ℝ
  | some a => some (if a < 0 then -1 else if 0 < a then 1 else 0)
  | none => none

/-- GLSL `pow` (used only with nonnegative base in the shader). -/
noncomputable def fpow : Option ℝ → Option ℝ → Option ℝ
  | some a, some b => some (a ^ b)
  | _, _ => none

/-- GLSL `acos`; arguments outside [-1, 1] give NaN. -/
noncomputable def facos : Option ℝ → Option ℝ
  | some a => if a < -1 ∨ 1 < a then none else some (Real.arccos a)
  | none => none

/-- Cosine. -/
noncomputable def fcos : Option ℝ → Option ℝ
  | some a => some (Real.cos a)
  | none => none

/-- Sine. -/
noncomputable def fsin : Option ℝ → Option ℝ
  | some a => some (Real.sin a)
  | none => none

/-- Two dimensional vector of non-finiteness-tracking scalars. -/
structure FVec2 where
  x : Option ℝ
  y : Option ℝ

noncomputable def fvadd (v w : FVec2) : FVec2 := ⟨fadd v.x w.x, fadd v.y w.y⟩
noncomputable def fvsub (v w : FVec2) : FVec2 := ⟨fsub v.x w.x, fsub v.y w.y⟩
noncomputable def fvmul (v w : FVec2) : FVec2 := ⟨fmul v.x w.x, fmul v.y w.y⟩
noncomputable def fvsmul (r : Option ℝ) (v : FVec2) : FVec2 := ⟨fmul r v.x, fmul r v.y⟩
noncomputable def fvdiv (v w : FVec2) : FVec2 := ⟨fdiv v.x w.x, fdiv v.y w.y⟩
noncomputable def fdot (v w : FVec2) : Option ℝ := fadd (fmul v.x w.x) (fmul v.y w.y)
noncomputable def fwedge (v w : FVec2) : Option ℝ := fsub (fmul v.x w.y) (fmul v.y w.x)
noncomputable def frot (p : FVec2) (cosb sinb : Option ℝ) : FVec2 :=
  ⟨fsub (fmul cosb p.x) (fmul sinb p.y), fadd (fmul sinb p.x) (fmul cosb p.y)⟩
noncomputable def flength (v : FVec2) : Option ℝ := fsqrt (fdot v v)

/-- Normalization as in `glam` (`self * self.length_recip()`): the
reciprocal of length 0 is an infinity and 0 times an infinity is NaN, so a
zero-length vector normalizes to a non-finite vector. -/
noncomputable def fnormalize (v : FVec2) : FVec2 := fvsmul (fdiv (some 1) (flength v)) v

noncomputable def fminV (v w : FVec2) : FVec2 := ⟨fminRust v.x w.x, fminRust v.y w.y⟩
noncomputable def fmaxV (v w : FVec2) : FVec2 := ⟨fmaxRust v.x w.x, fmaxRust v.y w.y⟩

/-- A quadratic curve with non-finiteness-tracking coordinates. -/
structure FQuadCurve where
  a : FVec2
  control : FVec2
  c : FVec2

/-- The non-finiteness-tracking translation of `QuadCurve::optimal_bb`. -/
noncomputable def optimal_bbF (q : FQuadCurve) (width : Option ℝ) :
    FVec2 × FVec2 × FVec2 × FVec2 :=
  let dir := fvsub q.c q.a
  let ndir := fnormalize dir
  let ox : FVec2 := ⟨some 1, some 0⟩
  let sinb := fwedge ndir ox
  let cosb := fdot (fnormalize (fvsub q.c q.a)) ox
  let p0 := q.a
  let p0p1 := fvsub q.control q.a
  let p1 := fvadd p0 (frot p0p1 cosb sinb)
  let p2 := fvadd p0 ⟨flength dir, some 0⟩
  let mi0 := fminV p0 p2
  let ma0 := fmaxV p0 p2
  let mima :=
    if fltP p1.x mi0.x ∨ fltP ma0.x p1.x ∨ fltP p1.y mi0.y ∨ fltP ma0.y p1.y then
      let t := fvdiv (fvsub p0 p1) (fvadd (fvsub p0 (fvsmul (some 2) p1)) p2)
      let t : FVec2 := ⟨fclampRust t.x, fclampRust t.y⟩
      let s := fvsub ⟨some 1, some 1⟩ t
      let qq := fvadd (fvadd (fvmul (fvmul s s) p0)
        (fvmul (fvmul (fvsmul (some 2) s) t) p1)) (fvmul (fvmul t t) p2)
      (fminV mi0 qq, fmaxV ma0 qq)
    else
      (mi0, ma0)
  let mi := fvsub mima.1 ⟨width, width⟩
  let ma := fvadd mima.2 ⟨width, width⟩
  let ma_rotated := fvadd p0 (frot (fvsub ma p0) cosb (fneg sinb))
  let mi_rotated := fvadd p0 (frot (fvsub mi p0) cosb (fneg sinb))
  let offset := fvsmul (fdot ndir (fvsub mi_rotated ma_rotated)) ndir
  let b := fvadd ma_rotated offset
  let d := fvsub mi_rotated offset
  (mi_rotated, b, ma_rotated, d)

/-- Squared length helper `dot2` from the fragment shader. -/
noncomputable def fdot2 (v : FVec2) : Option ℝ := fdot v v

/-- The non-finiteness-tracking translation of the `sdBezier` function of
the fragment shader in `bstroke.rs`, with the GLSL reference semantics of
`min`, `max` and `clamp`. -/
noncomputable def sdBezierF (pos A B C : FVec2) : Option ℝ :=
  let a := fvsub B A
  let b := fvadd (fvsub A (fvsmul (some 2) B)) C
  let c := fvsmul (some 2) a
  let d := fvsub A pos
  let kk := fdiv (some 1) (fdot b b)
  let kx := fmul kk (fdot a b)
  let ky := fdiv (fmul kk (fadd (fmul (some 2) (fdot a a)) (fdot d b))) (some 3)
  let kz := fmul kk (fdot d a)
  let p := fsub ky (fmul kx kx)
  let p3 := fmul (fmul p p) p
  let q := fadd (fmul kx (fsub (fmul (some 2) (fmul kx kx)) (fmul (some 3) ky))) kz
  let h := fadd (fmul q q) (fmul (some 4) p3)
  if fgeP h (some 0) then
    let h2 := fsqrt h
    let x1 := fdiv (fsub h2 q) (some 2)
    let x2 := fdiv (fsub (fneg h2) q) (some 2)
    let uv1 := fmul (fsign x1) (fpow (fabs x1) (fdiv (some 1) (some 3)))
    let uv2 := fmul (fsign x2) (fpow (fabs x2) (fdiv (some 1) (some 3)))
    let t := fclampGl (fsub (fadd uv1 uv2) kx) (some 0) (some 1)
    fsqrt (fdot2 (fvadd d (fvsmul t (fvadd c (fvsmul t b)))))
  else
    let z := fsqrt (fneg p)
    let v := fdiv (facos (fdiv q (fmul (fmul p z) (some 2)))) (some 3)
    let m := fcos v
    let n := fmul (fsin v) (some 1.732050808)
    let t1 := fclampGl (fsub (fmul (fadd m m) z) kx) (some 0) (some 1)
    let t2 := fclampGl (fsub (fmul (fsub (fneg n) m) z) kx) (some 0) (some 1)
    let res := fminGl (fdot2 (fvadd d (fvsmul t1 (fvadd c (fvsmul t1 b)))))
      (fdot2 (fvadd d (fvsmul t2 (fvadd c (fvsmul t2 b)))))
    fsqrt res

/-- C5: for the degenerate curve with `a == c`, normalizing the zero-length
chord produces a non-finite value that propagates into every coordinate of
all four quad corners produced by `optimal_bb`: the code emits non-finite
geometry, contradicting the claim that the rendered geometry is always
finite. -/
theorem optimal_bb_degenerate_not_finite :
    optimal_bbF ⟨⟨some 0, some 0⟩, ⟨some 1, some 0⟩, ⟨some 0, some 0⟩⟩ (some 10)
      = (⟨none, none⟩, ⟨none, none⟩, ⟨none, none⟩, ⟨none, none⟩) := by
  norm_num [optimal_bbF, fnormalize, flength, fdot, fwedge, frot, fvadd, fvsub,
    fvmul, fvsmul, fvdiv, fminV, fmaxV, fadd, fsub, fmul, fdiv, fneg, fsqrt,
    fltP, fclampRust, fminRust, fmaxRust, Real.sqrt_zero]

/-- C6: for the exactly degenerate straight-line configuration (control at
the midpoint of the endpoints) the quadratic coefficient `b` of the shader
is zero, `kk = 1/dot(b,b)` is an infinity, and the entire evaluation
degenerates to NaN: `sdBezier((1,1), (0,0), (1,0), (2,0))` is non-finite
instead of the point-to-segment distance 1 that the claim requires. -/
theorem sdBezier_degenerate_not_distance :
    sdBezierF ⟨some 1, some 1⟩ ⟨some 0, some 0⟩ ⟨some 1, some 0⟩ ⟨some 2, some 0⟩
      = none := by
  norm_num [sdBezierF, fdot2, fdot, fvadd, fvsub, fvmul, fvsmul, fadd, fsub,
    fmul, fdiv, fneg, fsqrt, fgeP, fltP, fclampGl, fminGl, fmaxGl, facos,
    fcos, fsin, fsign, fabs, fpow]

/-- The shader-local vector `a = B - A` of `sdBezier`. -/
noncomputable def sdA (A B : Vec2 ℝ) : Vec2 ℝ := B - A

/-- The shader-local vector `b = A - 2.0*B + C` of `sdBezier`. -/
noncomputable def sdB (A B C : Vec2 ℝ) : Vec2 ℝ := A - (2 : ℝ) * B + C

/-- The shader-local vector `c = a * 2.0` of `sdBezier`. -/
noncomputable def sdC (A B : Vec2 ℝ) : Vec2 ℝ := (2 : ℝ) * sdA A B

/-- The shader-local vector `d = A - pos` of `sdBezier`. -/
noncomputable def sdD (pos A : Vec2 ℝ) : Vec2 ℝ := A - pos

/-- The shader scalar `kk = 1.0/dot(b,b)`. -/
noncomputable def sdKK (A B C : Vec2 ℝ) : ℝ := 1 / (sdB A B C).dot (sdB A B C)

/-- The shader scalar `kx = kk * dot(a,b)`. -/
noncomputable def sdKX (A B C : Vec2 ℝ) : ℝ := sdKK A B C * (sdA A B).dot (sdB A B C)

/-- The shader scalar `ky = kk * (2.0*dot(a,a)+dot(d,b)) / 3.0`. -/
noncomputable def sdKY (pos A B C : Vec2 ℝ) : ℝ :=
  sdKK A B C * (2 * (sdA A B).dot (sdA A B) + (sdD pos A).dot (sdB A B C)) / 3

/-- The shader scalar `kz = kk * dot(d,a)`. -/
noncomputable def sdKZ (pos A B C : Vec2 ℝ) : ℝ := sdKK A B C * (sdD pos A).dot (sdA A B)

/-- The shader scalar `p = ky - kx*kx`. -/
noncomputable def sdP (pos A B C : Vec2 ℝ) : ℝ :=
  sdKY pos A B C - sdKX A B C * sdKX A B C

/-- The shader scalar `q = kx*(2.0*kx*kx-3.0*ky) + kz`. -/
noncomputable def sdQ (pos A B C : Vec2 ℝ) : ℝ :=
  sdKX A B C * (2 * sdKX A B C * sdKX A B C - 3 * sdKY pos A B C) + sdKZ pos A B C

/-- The shader discriminant `h = q*q + 4.0*p3` with `p3 = p*p*p`. -/
noncomputable def sdH (pos A B C : Vec2 ℝ) : ℝ :=
  sdQ pos A B C * sdQ pos A B C
    + 4 * (sdP pos A B C * sdP pos A B C * sdP pos A B C)

/-- GLSL `clamp(x, 0.0, 1.0)` from its reference definition
`min(max(x, minVal), maxVal)`. -/
noncomputable def glslClamp (x : ℝ) : ℝ := Min.min (Max.max x 0) 1

/-- The shader scalar `z = sqrt(-p)` of the three-real-root branch. -/
noncomputable def sdZ (pos A B C : Vec2 ℝ) : ℝ := Real.sqrt (-sdP pos A B C)

/-- The shader scalar `v = acos(q/(p*z*2.0))/3.0` of the three-root branch. -/
noncomputable def sdV (pos A B C : Vec2 ℝ) : ℝ :=
  Real.arccos (sdQ pos A B C / (sdP pos A B C * sdZ pos A B C * 2)) / 3

/-- The shader scalar `m = cos(v)`. -/
noncomputable def sdM (pos A B C : Vec2 ℝ) : ℝ := Real.cos (sdV pos A B C)

/-- The shader scalar `n = sin(v)*1.732050808`. -/
noncomputable def sdN (pos A B C : Vec2 ℝ) : ℝ := Real.sin (sdV pos A B C) * 1.732050808

/-- The first clamped candidate root `t.x = clamp((m+m)*z-kx, 0.0, 1.0)`. -/
noncomputable def sdTx (pos A B C : Vec2 ℝ) : ℝ :=
  glslClamp ((sdM pos A B C + sdM pos A B C) * sdZ pos A B C - sdKX A B C)

/-- The second clamped candidate root `t.y = clamp((-n-m)*z-kx, 0.0, 1.0)`. -/
noncomputable def sdTy (pos A B C : Vec2 ℝ) : ℝ :=
  glslClamp ((-sdN pos A B C - sdM pos A B C) * sdZ pos A B C - sdKX A B C)

/-- The third clamped candidate root `t.z = clamp((n-m)*z-kx, 0.0, 1.0)`,
skipped by the shader. -/
noncomputable def sdTz (pos A B C : Vec2 ℝ) : ℝ :=
  glslClamp ((sdN pos A B C - sdM pos A B C) * sdZ pos A B C - sdKX A B C)

/-- The squared distance candidate `dot2(d + (c + b*t)*t)` evaluated by the
shader at a parameter value. -/
noncomputable def sdDist2 (pos A B C : Vec2 ℝ) (s : ℝ) : ℝ :=
  let u := sdD pos A + s * (sdC A B + s * sdB A B C)
  u.dot u
